import Mathlib

/-!
Verification of the LaTeX-diary converter (`utils/update_diary_template.py`).

The Python code is shallowly embedded: strings are `List Char`, the
filesystem is a pure existence predicate `List String → Bool`, and the
fixed regular expressions of the source are translated into deterministic
matchers. Python's `str.find`, slicing with non-negative bounds,
`str.strip`, `str.replace`, negative list indexing and `re.sub` / `re.search`
(for the concrete patterns appearing in the source) are modelled by the
`py*`-prefixed functions below. ASCII inputs are assumed, so the
whitespace class is the six ASCII whitespace characters.
-/

namespace Diary

/-- ASCII whitespace, the relevant part of Python's `str.strip` set and of
the regex class matched by a backslash-s on the ASCII inputs in scope. -/
def isSpace (c : Char) : Bool :=
  c == ' ' || c == '\t' || c == '\n' || c == '\r' || c == '\x0b' || c == '\x0c'

/-- ASCII digit, the regex class matched by a backslash-d on ASCII input. -/
def isDigit (c : Char) : Bool :=
  '0' ≤ c && c ≤ '9'

/-- Auxiliary scan for `strFind`: first index at which `needle` is a prefix. -/
def strFindAux (needle : List Char) : List Char → Option Nat
  | [] => if needle.isPrefixOf ([] : List Char) then some 0 else none
  | c :: t =>
      if needle.isPrefixOf (c :: t) then some 0
      else (strFindAux needle t).map (· + 1)

/-- Python `hay.find(needle)`, with `none` for Python's `-1`. -/
def strFind (hay needle : List Char) : Option Nat :=
  strFindAux needle hay

/-- Python `needle in hay` (substring containment). -/
def containsSub (hay needle : List Char) : Bool :=
  (strFind hay needle).isSome

/-- `needle` occurs in `hay` starting at index `i`. -/
def occursAt (hay needle : List Char) (i : Nat) : Bool :=
  needle.isPrefixOf (hay.drop i)

/-- Python `s[a:b]` for non-negative `a`, `b` (clamping included). -/
def pySlice (s : List Char) (a b : Nat) : List Char :=
  (s.take b).drop a

/-- Python `s.strip()` restricted to ASCII whitespace. -/
def pyStrip (s : List Char) : List Char :=
  ((s.dropWhile isSpace).reverse.dropWhile isSpace).reverse

/-- Fuel-driven body of `pyReplace`; the fuel is the length of the scanned
string, and every successful match consumes at least one character. -/
def pyReplaceAux (old new : List Char) : Nat → List Char → List Char
  | 0, s => s
  | _ + 1, [] => []
  | n + 1, c :: t =>
      if old.isPrefixOf (c :: t) then new ++ pyReplaceAux old new n ((c :: t).drop old.length)
      else c :: pyReplaceAux old new n t

/-- Python `s.replace(old, new)` for non-empty `old` (every call site of the
source passes a non-empty literal; the empty-pattern case is left as the
identity). -/
def pyReplace (s old new : List Char) : List Char :=
  if old.isEmpty then s else pyReplaceAux old new s.length s

/-- Python list indexing with a possibly negative index, `none` on
`IndexError`. -/
def pyGet (l : List α) (i : Int) : Option α :=
  if 0 ≤ i then l.get? i.toNat
  else if (-i).toNat ≤ l.length then l.get? (l.length - (-i).toNat)
  else none

/-- Python `int()` on a non-empty all-digit string. -/
def pyInt (s : List Char) : Nat :=
  s.foldl (fun a c => 10 * a + (c.toNat - 48)) 0

/-- Python `str()` of a non-negative integer. -/
def natToStr (n : Nat) : List Char :=
  Nat.toDigits 10 n

/-! ### Literal markers of the source -/

/-- The begin-body marker of `extract_content`. -/
def beginMarker : List Char := "\\begin\x7bdocument\x7d".toList

/-- The end-body marker of `extract_content` and `convert_file`. -/
def endMarker : List Char := "\\end\x7bdocument\x7d".toList

/-- The bibliography anchor of `convert_file`. -/
def bibMarker : List Char := "\\bibliographystyle".toList

/-- The blank-line separator spliced after the body in `convert_file`. -/
def nl2 : List Char := "\n\n".toList

/-- The tag placeholder token of `inject_personal_info`. -/
def tagsToken : List Char := "<TAGS>".toList

/-- The tag-comment line targeted by the secondary substitution of
`inject_personal_info`. -/
def tagCommentLine : List Char := "%<TAGs>: <TAGS>".toList

/-- The prefix of the replacement written by the secondary substitution. -/
def tagCommentPrefix : List Char := "%<TAGs>: ".toList

/-! ### The two `re.sub` patterns of `extract_content` -/

/-- Match a literal at the head of the input, returning the rest. -/
def matchLit (lit s : List Char) : Option (List Char) :=
  if lit.isPrefixOf s then some (s.drop lit.length) else none

/-- The literal head of the title-line pattern. -/
def hrefLit : List Char := "\\href\x7brun:".toList

/-- The literal head of the empty-section pattern. -/
def sectionLit : List Char := "\\section\x7b".toList

/-- Match the title-line pattern (backslash-href, brace, run colon, one or
more non-brace characters, brace, brace, one or more non-brace characters,
brace, then greedy whitespace) at the head of the input, returning the rest
of the input after the match. Greedy matching with commitment is faithful
here because each repeated class excludes the character that must follow. -/
def matchHref (s : List Char) : Option (List Char) :=
  match matchLit hrefLit s with
  | none => none
  | some t1 =>
      let a := t1.takeWhile (fun c => c != '\x7d')
      match t1.dropWhile (fun c => c != '\x7d') with
      | '\x7d' :: '\x7b' :: t4 =>
          let b := t4.takeWhile (fun c => c != '\x7d')
          match t4.dropWhile (fun c => c != '\x7d') with
          | '\x7d' :: t6 =>
              if a.length == 0 || b.length == 0 then none
              else some (t6.dropWhile isSpace)
          | _ => none
      | _ => none

/-- Match the empty-section pattern (backslash-section, brace, greedy
whitespace, brace, then greedy whitespace) at the head of the input. -/
def matchSection (s : List Char) : Option (List Char) :=
  match matchLit sectionLit s with
  | none => none
  | some t1 =>
      match t1.dropWhile isSpace with
      | '\x7d' :: t2 => some (t2.dropWhile isSpace)
      | _ => none

/-- Fuel-driven body of `reSub`: scan left to right, deleting each match
(the source always substitutes the empty string). Every matcher used here
consumes at least one character on success, so fuel equal to the length of
the string is sufficient. -/
def reSubAux (m : List Char → Option (List Char)) : Nat → List Char → List Char
  | 0, s => s
  | _ + 1, [] => []
  | n + 1, c :: t =>
      match m (c :: t) with
      | some rest => reSubAux m n rest
      | none => c :: reSubAux m n t

/-- Python `re.sub(pattern, "", s)` for the source's two patterns. -/
def reSub (m : List Char → Option (List Char)) (s : List Char) : List Char :=
  reSubAux m s.length s

/-- The post-processing of `extract_content`: strip, then remove title
lines, then remove empty sections. -/
def postProcess (s : List Char) : List Char :=
  reSub matchSection (reSub matchHref (pyStrip s))

/-- `extract_content`: find the first begin-body and end-body markers; fail
if either is absent; otherwise slice strictly between them and post-process. -/
def extract_content (content : List Char) : Option (List Char) :=
  match strFind content beginMarker, strFind content endMarker with
  | some ds, some de =>
      some (postProcess (pySlice content (ds + beginMarker.length) de))
  | _, _ => none

/-! ### The date regex of `get_date_info` -/

/-- After the year and its dash: match the month group (one or two digits,
greedy with regex backtracking resolved statically) followed by a dash,
returning the month group and the rest after the dash. -/
def matchMonthDash : List Char → Option (List Char × List Char)
  | m1 :: m2 :: m3 :: rest =>
      if isDigit m1 then
        if isDigit m2 && m3 == '-' then some ([m1, m2], rest)
        else if m2 == '-' then some ([m1], m3 :: rest)
        else none
      else none
  | [m1, m2] =>
      if isDigit m1 && m2 == '-' then some ([m1], []) else none
  | _ => none

/-- Match the day group: one or two digits, greedy, nothing required after. -/
def matchDay : List Char → Option (List Char × List Char)
  | d1 :: d2 :: rest =>
      if isDigit d1 then
        if isDigit d2 then some ([d1, d2], rest) else some ([d1], d2 :: rest)
      else none
  | [d1] => if isDigit d1 then some ([d1], []) else none
  | [] => none

/-- Match the whole date pattern (four digits, dash, month group, dash, day
group) at the head of the input, returning the three groups. -/
def matchDateAt (s : List Char) : Option (List Char × List Char × List Char) :=
  match s with
  | c1 :: c2 :: c3 :: c4 :: c5 :: rest =>
      if isDigit c1 && isDigit c2 && isDigit c3 && isDigit c4 && c5 == '-' then
        match matchMonthDash rest with
        | some (m, rest2) =>
            match matchDay rest2 with
            | some (d, _) => some ([c1, c2, c3, c4], m, d)
            | none => none
        | none => none
      else none
  | _ => none

/-- Python `re.search` for the date pattern: leftmost match wins. -/
def dateSearch : List Char → Option (List Char × List Char × List Char)
  | [] => none
  | c :: t =>
      match matchDateAt (c :: t) with
      | some g => some g
      | none => dateSearch t

/-- The month-name list of `get_date_info`. -/
def month_names : List (List Char) :=
  [ "January".toList, "February".toList, "March".toList, "April".toList,
    "May".toList, "June".toList, "July".toList, "August".toList,
    "September".toList, "October".toList, "November".toList, "December".toList ]

/-- The dictionary returned by `get_date_info`. -/
structure DateInfo where
  year : List Char
  month : List Char
  day : List Char
  month_name : List Char
  day_number : List Char
deriving DecidableEq, Repr

/-- The dictionary built at the end of `get_date_info` from the year string
and the numeric month and day; the month-name lookup uses Python list
indexing, so `none` models the `IndexError` raised when the index is out of
range. -/
def mkDateInfo (year : List Char) (monthNum dayNum : Nat) : Option DateInfo :=
  match pyGet month_names ((monthNum : Int) - 1) with
  | some mn => some ⟨year, natToStr monthNum, natToStr dayNum, mn, natToStr dayNum⟩
  | none => none

/-- `get_date_info`: search the filename stem for the date pattern, falling
back to the current date (passed explicitly here), then build the
dictionary. -/
def get_date_info (stem : List Char) (nowYear nowMonth nowDay : Nat) : Option DateInfo :=
  match dateSearch stem with
  | some (y, m, d) => mkDateInfo y (pyInt m) (pyInt d)
  | none => mkDateInfo (natToStr nowYear) nowMonth nowDay

/-! ### `inject_personal_info` and `convert_file` -/

/-- The placeholder tokens substituted by `inject_personal_info`, in the
source's dictionary order. -/
def placeholderTokens : List (List Char) :=
  [ "<YEAR>".toList, "<MONTH>".toList, "<DAY>".toList, "<MONTH_NAME>".toList,
    "<DAY_NUMBER>".toList, "<AUTHOR>".toList, "<INSTITUTION>".toList,
    "<DIARY_TITLE>".toList, "<FILENAME>".toList ]

/-- The tag-injection step of `inject_personal_info` (its final if/else):
replace the tag token by the folder name when present, otherwise attempt
the secondary substitution on the tag-comment line. -/
def tagStep (result folderName : List Char) : List Char :=
  if containsSub result tagsToken then pyReplace result tagsToken folderName
  else pyReplace result tagCommentLine (tagCommentPrefix ++ folderName)

/-- `inject_personal_info`: substitute the nine metadata placeholders in
dictionary order, then run the tag step. The config lookups with defaults
are modelled by passing the already-resolved author/institution/title
values. `none` models the `IndexError` that `get_date_info` may raise. -/
def inject_personal_info (template : List Char)
    (author institution diaryTitle : List Char)
    (texStem texName folderName : List Char)
    (nowYear nowMonth nowDay : Nat) : Option (List Char) :=
  match get_date_info texStem nowYear nowMonth nowDay with
  | none => none
  | some di =>
      let values : List (List Char) :=
        [di.year, di.month, di.day, di.month_name, di.day_number,
         author, institution, diaryTitle, texName]
      let result := (placeholderTokens.zip values).foldl
        (fun acc pv => pyReplace acc pv.1 pv.2) template
      some (tagStep result folderName)

/-- The splice of `convert_file`: insert the body plus a blank-line
separator before the first bibliography directive if one is present,
otherwise before the first end-of-document marker; when neither is found
Python's `find` returns `-1` and the slice pair becomes all-but-last
character and last character. -/
def spliceContent (template body : List Char) : List Char :=
  match strFind template bibMarker with
  | some i => template.take i ++ body ++ nl2 ++ template.drop i
  | none =>
      match strFind template endMarker with
      | some i => template.take i ++ body ++ nl2 ++ template.drop i
      | none => template.dropLast ++ body ++ nl2 ++ template.drop (template.length - 1)

/-- `convert_file` (pure core): extract, inject, splice, and report the
success flag together with the written output (if any). A `none` from
extraction or an `IndexError` inside the date lookup is caught by the
source's per-file handler and turned into a `False` return with no output
file written. -/
def convert_file (template : List Char)
    (author institution diaryTitle : List Char)
    (texStem texName content folderName : List Char)
    (nowYear nowMonth nowDay : Nat) : Bool × Option (List Char) :=
  match extract_content content with
  | none => (false, none)
  | some body =>
      match inject_personal_info template author institution diaryTitle
          texStem texName folderName nowYear nowMonth nowDay with
      | none => (false, none)
      | some inj => (true, some (spliceContent inj body))

/-! ### `convert_folder` -/

/-- The catch-all of `convert_file` (lines 340-342): a per-file run either
returns a boolean or raises, and every raised exception is caught and
converted into a `False` result. -/
def convertFileCaught (run : Except (List Char) Bool) : Bool :=
  match run with
  | .ok b => b
  | .error _ => false

/-- The tallying loop of `convert_folder`: successful and failed counts. -/
def convertFolderCounts (results : List (Except (List Char) Bool)) : Nat × Nat :=
  results.foldl
    (fun acc r => if convertFileCaught r then (acc.1 + 1, acc.2) else (acc.1, acc.2 + 1))
    (0, 0)

/-- The value returned by `convert_folder` after processing a non-empty
file list: the failed count. -/
def convert_folder (results : List (Except (List Char) Bool)) : Nat :=
  (convertFolderCounts results).2

/-! ### Asset resolution and copying

Paths are lists of components; the parent of a path drops its last
component, and the filesystem is an existence predicate on paths. -/

/-- The four candidate locations tried by `_resolve_asset_path`, in the
source's order. -/
def candidatePaths (texFile : List String) (asset : List String) : List (List String) :=
  [ texFile.dropLast ++ asset,
    texFile.dropLast ++ ["assets", "figures"] ++ asset,
    texFile.dropLast ++ ["figures"] ++ asset,
    texFile.dropLast.dropLast ++ ["assets", "figures"] ++ asset ]

/-- `_resolve_asset_path`: the first existing candidate, else `none`. -/
def resolve_asset_path (fs : List String → Bool) (texFile : List String)
    (asset : List String) : Option (List String) :=
  (candidatePaths texFile asset).find? fs

/-- The copy-mode loop of `copy_assets`: for each reference, resolve it;
when it resolves to an existing file (the source re-checks existence),
record the destination under the output directory; otherwise skip it. -/
def copyAssetsCopyMode (fs : List String → Bool) (texFile outputDir : List String)
    (assetRefs : List (List String)) : List (List String) :=
  assetRefs.filterMap fun a =>
    match resolve_asset_path fs texFile a with
    | some src => if fs src then some (outputDir ++ a) else none
    | none => none

/-- Fuel-driven upward walk of the symlink branch of `copy_assets`: from
`dir`, stop at the first directory owning an `assets` child, or at the
filesystem root (the empty path). The fuel is the number of components. -/
def findAssetsRootAux (fs : List String → Bool) : Nat → List String → List String
  | 0, _ => []
  | _ + 1, [] => []
  | n + 1, d :: ds =>
      if fs ((d :: ds) ++ ["assets"]) then d :: ds
      else findAssetsRootAux fs n (d :: ds).dropLast

/-- The upward walk of the symlink branch, starting with adequate fuel. -/
def findAssetsRoot (fs : List String → Bool) (dir : List String) : List String :=
  findAssetsRootAux fs dir.length dir

/-- Fuel-driven list of a directory and all its ancestors up to the root. -/
def ancestorsAux : Nat → List String → List (List String)
  | 0, _ => [[]]
  | _ + 1, [] => [[]]
  | n + 1, d :: ds => (d :: ds) :: ancestorsAux n (d :: ds).dropLast

/-- A directory together with all its ancestors up to the root. -/
def ancestors (dir : List String) : List (List String) :=
  ancestorsAux dir.length dir

/-- `copy_assets`: with no references, nothing happens. In symlink mode,
walk upward looking for a shared `assets` directory; if one exists, either
the single symlink is created (recorded as the `assets` entry of the output
directory) or, when link creation raises an `OSError` (`symlinkFails`),
every reference is copied individually as a fallback. When no shared
`assets` directory exists the source only logs a warning and copies
nothing. In copy mode every resolved reference is copied individually. -/
def copy_assets (fs : List String → Bool) (symlinkFails : Bool)
    (texFile outputDir : List String) (assetRefs : List (List String))
    (useSymlinks : Bool) : List (List String) :=
  if assetRefs.isEmpty then []
  else if useSymlinks then
    let rootDir := findAssetsRoot fs texFile.dropLast
    if fs (rootDir ++ ["assets"]) then
      if symlinkFails then copyAssetsCopyMode fs texFile outputDir assetRefs
      else [outputDir ++ ["assets"]]
    else []
  else copyAssetsCopyMode fs texFile outputDir assetRefs

/-! ### Helper lemmas on `strFind`, `occursAt` and `containsSub` -/

theorem strFind_cons (c : Char) (t needle : List Char) :
    strFind (c :: t) needle =
      if needle.isPrefixOf (c :: t) then some 0 else (strFind t needle).map (· + 1) := rfl

theorem strFind_zero_of_prefix {hay needle : List Char}
    (h : needle.isPrefixOf hay = true) : strFind hay needle = some 0 := by
  cases hay with
  | nil => simp [strFind, strFindAux, h]
  | cons c t => simp [strFind, strFindAux, h]

theorem occursAt_zero (hay needle : List Char) :
    occursAt hay needle 0 = needle.isPrefixOf hay := rfl

theorem occursAt_cons_succ (c : Char) (t needle : List Char) (j : Nat) :
    occursAt (c :: t) needle (j + 1) = occursAt t needle j := rfl

theorem strFind_occursAt {hay needle : List Char} {k : Nat}
    (h : strFind hay needle = some k) : occursAt hay needle k = true := by
  induction hay generalizing k with
  | nil =>
      simp only [strFind, strFindAux] at h
      split at h
      · rename_i hpre
        cases h
        simpa [occursAt] using hpre
      · cases h
  | cons c t ih =>
      rw [strFind_cons] at h
      split at h
      · rename_i hpre
        cases h
        simpa [occursAt] using hpre
      · rcases Option.map_eq_some'.mp h with ⟨k', hk', rfl⟩
        simpa [occursAt_cons_succ] using ih hk'

theorem strFind_min {hay needle : List Char} {k : Nat}
    (h : strFind hay needle = some k) :
    ∀ j, j < k → occursAt hay needle j = false := by
  induction hay generalizing k with
  | nil =>
      intro j hj
      simp only [strFind, strFindAux] at h
      split at h
      · cases h; omega
      · cases h
  | cons c t ih =>
      intro j hj
      rw [strFind_cons] at h
      split at h
      · cases h; omega
      · rename_i hpre
        rcases Option.map_eq_some'.mp h with ⟨k', hk', rfl⟩
        cases j with
        | zero =>
            simp only [Bool.not_eq_true] at hpre
            rwa [occursAt_zero]
        | succ j' =>
            rw [occursAt_cons_succ]
            exact ih hk' j' (by omega)

theorem strFind_of_occursAt_min {hay needle : List Char} {k : Nat}
    (h : occursAt hay needle k = true)
    (hmin : ∀ j, j < k → occursAt hay needle j = false) :
    strFind hay needle = some k := by
  induction hay generalizing k with
  | nil =>
      have hk : k = 0 := by
        by_contra hne
        have h0 : occursAt ([] : List Char) needle 0 = true := by
          simpa [occursAt] using h
        have := hmin 0 (Nat.pos_of_ne_zero hne)
        rw [h0] at this
        cases this
      subst hk
      simp only [occursAt, List.drop_nil] at h
      simp [strFind, strFindAux, h]
  | cons c t ih =>
      cases k with
      | zero =>
          rw [occursAt_zero] at h
          rw [strFind_cons, h]
          rfl
      | succ k' =>
          have hpre : needle.isPrefixOf (c :: t) = false := by
            have h0 := hmin 0 (Nat.succ_pos k')
            rwa [occursAt_zero] at h0
          rw [strFind_cons, hpre]
          simp only [Bool.false_eq_true, if_false]
          have ht : strFind t needle = some k' := by
            apply ih
            · simpa [occursAt_cons_succ] using h
            · intro j hj
              simpa [occursAt_cons_succ] using hmin (j + 1) (by omega)
          rw [ht]
          rfl

theorem strFind_eq_none_iff {hay needle : List Char} :
    strFind hay needle = none ↔ ∀ j, occursAt hay needle j = false := by
  induction hay with
  | nil =>
      simp only [strFind, strFindAux]
      constructor
      · intro h j
        split at h
        · cases h
        · rename_i hpre
          simp only [Bool.not_eq_true] at hpre
          unfold occursAt
          rw [List.drop_nil]
          exact hpre
      · intro h
        have := h 0
        simp only [occursAt, List.drop_nil] at this
        simp [this]
  | cons c t ih =>
      rw [strFind_cons]
      constructor
      · intro h j
        split at h
        · cases h
        · rename_i hpre
          simp only [Bool.not_eq_true] at hpre
          cases j with
          | zero => rwa [occursAt_zero]
          | succ j' =>
              rw [occursAt_cons_succ]
              exact (ih.mp (by simpa using h)) j'
      · intro h
        have h0 : needle.isPrefixOf (c :: t) = false := by
          simpa [occursAt_zero] using h 0
        rw [h0]
        simp only [Bool.false_eq_true, if_false]
        have : strFind t needle = none :=
          ih.mpr fun j => by simpa [occursAt_cons_succ] using h (j + 1)
        simp [this]

theorem containsSub_of_occursAt {hay needle : List Char} {j : Nat}
    (h : occursAt hay needle j = true) : containsSub hay needle = true := by
  unfold containsSub
  cases hf : strFind hay needle with
  | none =>
      have := strFind_eq_none_iff.mp hf j
      rw [h] at this
      cases this
  | some k => rfl

theorem occursAt_decomp {hay needle : List Char} {j : Nat}
    (h : occursAt hay needle j = true) :
    ∃ post, hay = hay.take j ++ needle ++ post := by
  have hpre : needle <+: hay.drop j := List.isPrefixOf_iff_prefix.mp h
  rcases hpre with ⟨post, hpost⟩
  refine ⟨post, ?_⟩
  rw [List.append_assoc, hpost, List.take_append_drop]

theorem containsSub_iff_exists {hay needle : List Char} :
    containsSub hay needle = true ↔ ∃ pre post, hay = pre ++ needle ++ post := by
  constructor
  · intro h
    unfold containsSub at h
    cases hf : strFind hay needle with
    | none => rw [hf] at h; cases h
    | some k =>
        rcases occursAt_decomp (strFind_occursAt hf) with ⟨post, hpost⟩
        exact ⟨hay.take k, post, hpost⟩
  · rintro ⟨pre, post, rfl⟩
    apply containsSub_of_occursAt (j := pre.length)
    rw [occursAt, List.append_assoc, List.drop_left]
    exact List.isPrefixOf_iff_prefix.mpr (List.prefix_append needle post)

theorem containsSub_cons_eq_false {c : Char} {t needle : List Char}
    (h : containsSub (c :: t) needle = false) :
    needle.isPrefixOf (c :: t) = false ∧ containsSub t needle = false := by
  unfold containsSub at h ⊢
  rw [strFind_cons] at h
  constructor
  · by_contra hpre
    rw [Bool.not_eq_false] at hpre
    rw [hpre] at h
    simp at h
  · split at h
    · simp at h
    · cases hf : strFind t needle with
      | none => rfl
      | some k => rw [hf] at h; simp at h

theorem pyReplaceAux_of_not_contains {old : List Char} (new : List Char) :
    ∀ n (s : List Char), containsSub s old = false → pyReplaceAux old new n s = s := by
  intro n
  induction n with
  | zero => intro s _; rfl
  | succ n ih =>
      intro s hs
      cases s with
      | nil => rfl
      | cons c t =>
          rcases containsSub_cons_eq_false hs with ⟨hpre, ht⟩
          simp only [pyReplaceAux, hpre]
          simp [ih t ht]

theorem pyReplace_of_not_contains {s old : List Char} (new : List Char)
    (h : containsSub s old = false) : pyReplace s old new = s := by
  unfold pyReplace
  split
  · rfl
  · exact pyReplaceAux_of_not_contains new s.length s h

theorem filter_length_add {α : Type} (p : α → Bool) (l : List α) :
    (l.filter p).length + (l.filter (fun a => !(p a))).length = l.length := by
  induction l with
  | nil => rfl
  | cons x xs ih =>
      cases hx : p x <;> simp [List.filter_cons, hx, ← ih] <;> omega

theorem find?_some_first {α : Type} (p : α → Bool) :
    ∀ (l : List α) (a : α), l.find? p = some a →
      ∃ i, l.get? i = some a ∧ p a = true ∧
        ∀ j, j < i → ∀ b, l.get? j = some b → p b = false := by
  intro l
  induction l with
  | nil => intro a h; cases h
  | cons x xs ih =>
      intro a h
      cases hx : p x with
      | true =>
          rw [List.find?_cons_of_pos _ hx] at h
          cases h
          exact ⟨0, rfl, hx, fun j hj => by omega⟩
      | false =>
          rw [List.find?_cons_of_neg _ (by simp [hx])] at h
          rcases ih a h with ⟨i, hi, hpa, hmin⟩
          refine ⟨i + 1, hi, hpa, ?_⟩
          intro j hj b hb
          cases j with
          | zero =>
              cases hb
              exact hx
          | succ j' => exact hmin j' (by omega) b hb

theorem convertFolderCounts_spec (results : List (Except (List Char) Bool)) :
    convertFolderCounts results =
      ((results.filter (fun r => convertFileCaught r)).length,
       (results.filter (fun r => !convertFileCaught r)).length) := by
  suffices h : ∀ a b,
      results.foldl
        (fun acc r => if convertFileCaught r then (acc.1 + 1, acc.2) else (acc.1, acc.2 + 1))
        (a, b) =
      (a + (results.filter (fun r => convertFileCaught r)).length,
       b + (results.filter (fun r => !convertFileCaught r)).length) by
    simpa [convertFolderCounts] using h 0 0
  induction results with
  | nil => intro a b; simp
  | cons r rs ih =>
      intro a b
      cases hr : convertFileCaught r <;>
        simp [List.foldl_cons, List.filter_cons, hr, ih] <;> omega

/-! ### Concrete fixtures used by witnesses and counterexamples -/

/-- A document whose only deviation from the markers is a body with a
trailing space left behind by the title-line removal. -/
def hrefDoc : List Char := beginMarker ++ "abc \\href\x7brun:x\x7d\x7by\x7d".toList ++ endMarker

/-- A document in which the end-body marker precedes the begin-body marker. -/
def flippedDoc : List Char := endMarker ++ beginMarker

/-- A filename stem containing two date-shaped substrings. -/
def twoDateStem : List Char := "2023-1-1a2024-2-2".toList

/-- A document file path, as components. -/
def tex0 : List String := ["d", "f.tex"]

/-- An asset reference, as components. -/
def asset0 : List String := ["a.png"]

/-- An output directory, as components. -/
def out0 : List String := ["out"]

/-- A filesystem containing only the document's `figures` copy of the
asset — in particular no `assets` directory anywhere. -/
def fs0 : List String → Bool := fun p => p == ["d", "figures", "a.png"]

/-- The path at which `fs0` resolves `asset0`. -/
def src0 : List String := ["d", "figures", "a.png"]

/-- An empty filesystem. -/
def fsEmpty : List String → Bool := fun _ => false

/-! ### Claim theorems -/

/-- C5: `convert_folder` is a total function of the per-file outcomes (every
exception raised inside a file's extract-compose-write-assets sequence is
caught by `convertFileCaught` and counted as a failure), its return value is
the number of failed files, and the success and failure tallies sum to the
number of enumerated files. -/
theorem convert_folder_counts (results : List (Except (List Char) Bool)) :
    convert_folder results = (results.filter (fun r => !convertFileCaught r)).length ∧
    (convertFolderCounts results).1 + (convertFolderCounts results).2 = results.length := by
  constructor
  · unfold convert_folder
    rw [convertFolderCounts_spec]
  · rw [convertFolderCounts_spec]
    exact filter_length_add _ results

/-- C7: a document lacking the begin-body marker or the end-body marker
makes `extract_content` return `none`, and `convert_file` then returns
`False` without writing any output. -/
theorem extract_content_missing_marker
    (template author institution diaryTitle texStem texName content folderName : List Char)
    (nowYear nowMonth nowDay : Nat)
    (h : containsSub content beginMarker = false ∨ containsSub content endMarker = false) :
    extract_content content = none ∧
      convert_file template author institution diaryTitle texStem texName content
        folderName nowYear nowMonth nowDay = (false, none) := by
  have hext : extract_content content = none := by
    unfold extract_content
    rcases h with h | h
    · have hb : strFind content beginMarker = none := by
        unfold containsSub at h
        cases hf : strFind content beginMarker with
        | none => rfl
        | some k => rw [hf] at h; cases h
      rw [hb]
    · have he : strFind content endMarker = none := by
        unfold containsSub at h
        cases hf : strFind content endMarker with
        | none => rfl
        | some k => rw [hf] at h; cases h
      rw [he]
      cases strFind content beginMarker <;> rfl
  refine ⟨hext, ?_⟩
  unfold convert_file
  rw [hext]

/-- Witness for C7 at a concrete marker-free document. -/
theorem extract_content_missing_marker_app :
    (containsSub ("hello".toList) beginMarker = false ∨
      containsSub ("hello".toList) endMarker = false) ∧
    (extract_content ("hello".toList) = none ∧
      convert_file [] [] [] [] [] [] ("hello".toList) [] 2025 1 1 = (false, none)) :=
  ⟨Or.inl (by decide),
    extract_content_missing_marker [] [] [] [] [] [] ("hello".toList) [] 2025 1 1
      (Or.inl (by decide))⟩

/-- C9: when the tag token is absent from the substituted template, the
secondary substitution on the tag-comment line is a no-op — that line
contains the tag token, so it cannot be present either — and the folder
name tag is dropped entirely. -/
theorem tagStep_noop (s folderName : List Char)
    (h : containsSub s tagsToken = false) : tagStep s folderName = s := by
  have hline : containsSub s tagCommentLine = false := by
    by_contra hc
    rw [Bool.not_eq_false] at hc
    rcases containsSub_iff_exists.mp hc with ⟨pre, post, hdec⟩
    have hsplit : tagCommentLine = tagCommentPrefix ++ tagsToken := by decide
    have : containsSub s tagsToken = true := by
      apply containsSub_iff_exists.mpr
      refine ⟨pre ++ tagCommentPrefix, post, ?_⟩
      rw [hdec, hsplit]
      simp [List.append_assoc]
    rw [h] at this
    cases this
  unfold tagStep
  rw [h]
  simp only [Bool.false_eq_true, if_false]
  exact pyReplace_of_not_contains _ hline

/-- Witness for C9 at a concrete token-free string. -/
theorem tagStep_noop_app :
    containsSub ("hello".toList) tagsToken = false ∧
      tagStep ("hello".toList) ("blog".toList) = "hello".toList :=
  ⟨by decide, tagStep_noop ("hello".toList) ("blog".toList) (by decide)⟩

/-- C2 counterexample: the filename stem 2024-0-5 yields the month value 0,
which is outside 1-12, yet `get_date_info` does not fail: Python's negative
list indexing turns index -1 into the last month name. -/
theorem get_date_info_month_zero_no_failure :
    (dateSearch ("2024-0-5".toList)).map (fun g => pyInt g.2.1) = some 0 ∧
      get_date_info ("2024-0-5".toList) 2025 1 1 ≠ none ∧
      (get_date_info ("2024-0-5".toList) 2025 1 1).map DateInfo.month_name =
        some ("December".toList) := by
  refine ⟨by decide, by decide, by decide⟩

/-- C2 (amended): a month value of 13-99 from the date pattern makes
`get_date_info` fail with the out-of-range lookup (`IndexError`), while a
month value of 0 is silently accepted and yields December through Python's
negative indexing. -/
theorem get_date_info_month_range (stem y m d : List Char) (nowYear nowMonth nowDay : Nat)
    (hs : dateSearch stem = some (y, m, d)) :
    (13 ≤ pyInt m → get_date_info stem nowYear nowMonth nowDay = none) ∧
    (pyInt m = 0 →
      (get_date_info stem nowYear nowMonth nowDay).map DateInfo.month_name =
        some ("December".toList)) := by
  have hg : get_date_info stem nowYear nowMonth nowDay = mkDateInfo y (pyInt m) (pyInt d) := by
    unfold get_date_info
    rw [hs]
  constructor
  · intro h13
    rw [hg]
    unfold mkDateInfo
    have hnone : pyGet month_names ((pyInt m : Int) - 1) = none := by
      unfold pyGet
      rw [if_pos (by omega : (0 : Int) ≤ (pyInt m : Int) - 1)]
      apply List.get?_eq_none.mpr
      have ht : ((pyInt m : Int) - 1).toNat = pyInt m - 1 := by omega
      rw [ht]
      have hlen : month_names.length = 12 := by rfl
      omega
    rw [hnone]
  · intro h0
    rw [hg, h0]
    have : mkDateInfo y 0 (pyInt d) =
        some ⟨y, natToStr 0, natToStr (pyInt d), "December".toList, natToStr (pyInt d)⟩ := by
      unfold mkDateInfo
      have hdec : pyGet month_names (((0 : Nat) : Int) - 1) = some ("December".toList) := by
        decide
      rw [hdec]
    rw [this]
    rfl

/-- Witness for C2 (amended) at the stem 2024-13-5. -/
theorem get_date_info_month_range_app :
    (dateSearch ("2024-13-5".toList) =
        some ("2024".toList, "13".toList, "5".toList) ∧ 13 ≤ pyInt ("13".toList)) ∧
      get_date_info ("2024-13-5".toList) 2025 1 1 = none :=
  ⟨⟨by decide, by decide⟩,
    (get_date_info_month_range ("2024-13-5".toList) ("2024".toList) ("13".toList)
      ("5".toList) 2025 1 1 (by decide)).1 (by decide)⟩

/-- C10: when the first end-body marker precedes the first begin-body
marker, extraction does not fail: the Python slice with start beyond stop is
empty, so the post-processed body is the empty string, and `convert_file`
proceeds to compose and write an output file, reporting success. -/
theorem extract_content_end_before_begin
    (template author institution diaryTitle texStem texName content folderName : List Char)
    (nowYear nowMonth nowDay : Nat) (b e : Nat) (inj : List Char)
    (hb : strFind content beginMarker = some b)
    (he : strFind content endMarker = some e)
    (hlt : e < b)
    (hinj : inject_personal_info template author institution diaryTitle texStem texName
      folderName nowYear nowMonth nowDay = some inj) :
    extract_content content = some [] ∧
      convert_file template author institution diaryTitle texStem texName content
        folderName nowYear nowMonth nowDay = (true, some (spliceContent inj [])) := by
  have hext : extract_content content = some [] := by
    unfold extract_content
    rw [hb, he]
    show some (postProcess (pySlice content (b + beginMarker.length) e)) = some []
    have hsl : pySlice content (b + beginMarker.length) e = [] := by
      unfold pySlice
      apply List.drop_eq_nil_of_le
      have h1 : (content.take e).length = e ⊓ content.length := List.length_take e content
      have h2 : e ⊓ content.length ≤ e := Nat.min_le_left e content.length
      omega
    rw [hsl]
    rfl
  refine ⟨hext, ?_⟩
  unfold convert_file
  rw [hext, hinj]

/-- Witness for C10 at a document consisting of the end marker followed by
the begin marker. -/
theorem extract_content_end_before_begin_app :
    (strFind flippedDoc beginMarker = some 14 ∧ strFind flippedDoc endMarker = some 0 ∧
      (0 : Nat) < 14 ∧
      inject_personal_info ("T".toList) [] [] [] ("s".toList) ("s.tex".toList)
        ("blog".toList) 2025 1 1 = some ("T".toList)) ∧
    (extract_content flippedDoc = some [] ∧
      convert_file ("T".toList) [] [] [] ("s".toList) ("s.tex".toList) flippedDoc
        ("blog".toList) 2025 1 1 = (true, some (spliceContent ("T".toList) []))) :=
  ⟨⟨by decide, by decide, by decide, by decide⟩,
    extract_content_end_before_begin ("T".toList) [] [] [] ("s".toList) ("s.tex".toList)
      flippedDoc ("blog".toList) 2025 1 1 14 0 ("T".toList)
      (by decide) (by decide) (by decide) (by decide)⟩

/-- C8: asset resolution tries exactly the four candidate locations in the
source's order and returns the first existing one; when none exists the
reference is unresolved and the copy-mode loop produces no destination file
for it. -/
theorem resolve_asset_path_spec (fs : List String → Bool)
    (texFile outputDir asset : List String) (assetRefs : List (List String)) :
    (∀ p, resolve_asset_path fs texFile asset = some p →
        ∃ i, (candidatePaths texFile asset).get? i = some p ∧ fs p = true ∧
          ∀ j, j < i → ∀ q, (candidatePaths texFile asset).get? j = some q → fs q = false) ∧
    (resolve_asset_path fs texFile asset = none →
        (∀ q ∈ candidatePaths texFile asset, fs q = false) ∧
          outputDir ++ asset ∉ copyAssetsCopyMode fs texFile outputDir assetRefs) := by
  constructor
  · intro p hp
    exact find?_some_first fs (candidatePaths texFile asset) p hp
  · intro hnone
    constructor
    · intro q hq
      have := List.find?_eq_none.mp hnone q hq
      simpa using this
    · intro hmem
      unfold copyAssetsCopyMode at hmem
      rw [List.mem_filterMap] at hmem
      rcases hmem with ⟨b, _, hfb⟩
      cases hr : resolve_asset_path fs texFile b with
      | none => rw [hr] at hfb; cases hfb
      | some src =>
          rw [hr] at hfb
          have hfb' : (if fs src = true then some (outputDir ++ b) else none) =
              some (outputDir ++ asset) := hfb
          by_cases hfs : fs src = true
          · rw [if_pos hfs] at hfb'
            have hba : b = asset := List.append_cancel_left (Option.some.inj hfb')
            rw [hba] at hr
            rw [hr] at hnone
            cases hnone
          · rw [if_neg hfs] at hfb'
            cases hfb'

/-- Witness for C8: with an empty filesystem no candidate exists, the
reference is unresolved, and no destination is produced. -/
theorem resolve_asset_path_spec_app :
    resolve_asset_path fsEmpty tex0 asset0 = none ∧
      out0 ++ asset0 ∉ copyAssetsCopyMode fsEmpty tex0 out0 [asset0] :=
  ⟨by decide, ((resolve_asset_path_spec fsEmpty tex0 out0 asset0 [asset0]).2 (by decide)).2⟩

/-- The first marker occurrence determined by a decomposition with no
earlier occurrence. -/
theorem strFind_of_decomp {t marker pre rest : List Char}
    (hdec : t = pre ++ marker ++ rest)
    (hmin : ∀ j, j < pre.length → occursAt t marker j = false) :
    strFind t marker = some pre.length := by
  apply strFind_of_occursAt_min
  · unfold occursAt
    rw [hdec, List.append_assoc, List.drop_left]
    exact List.isPrefixOf_iff_prefix.mpr (List.prefix_append marker rest)
  · exact hmin

/-- Splicing a body at the boundary of a decomposition, written with
`take`/`drop` the way `convert_file` slices the template. -/
theorem splice_decomp (pre mid rest body : List Char) :
    (pre ++ mid ++ rest).take pre.length ++ body ++ nl2 ++
        (pre ++ mid ++ rest).drop pre.length =
      pre ++ body ++ nl2 ++ mid ++ rest := by
  have ht : (pre ++ mid ++ rest).take pre.length = pre := by
    rw [List.append_assoc, List.take_left]
  have hd : (pre ++ mid ++ rest).drop pre.length = mid ++ rest := by
    rw [List.append_assoc, List.drop_left]
  rw [ht, hd]
  simp [List.append_assoc]

/-- C6: composition splices the body plus a blank-line separator
immediately before the first bibliography-style directive when the template
contains one, and otherwise immediately before the first end-of-document
marker when the template contains that. -/
theorem spliceContent_spec (template body pre rest : List Char) :
    (template = pre ++ bibMarker ++ rest →
      (∀ j, j < pre.length → occursAt template bibMarker j = false) →
      spliceContent template body = pre ++ body ++ nl2 ++ bibMarker ++ rest) ∧
    (containsSub template bibMarker = false →
      template = pre ++ endMarker ++ rest →
      (∀ j, j < pre.length → occursAt template endMarker j = false) →
      spliceContent template body = pre ++ body ++ nl2 ++ endMarker ++ rest) := by
  constructor
  · intro hdec hmin
    have hf := strFind_of_decomp hdec hmin
    unfold spliceContent
    rw [hf]
    show template.take pre.length ++ body ++ nl2 ++ template.drop pre.length =
      pre ++ body ++ nl2 ++ bibMarker ++ rest
    rw [hdec]
    exact splice_decomp pre bibMarker rest body
  · intro hnc hdec hmin
    have hnone : strFind template bibMarker = none := by
      cases hf : strFind template bibMarker with
      | none => rfl
      | some k => unfold containsSub at hnc; rw [hf] at hnc; cases hnc
    have hf := strFind_of_decomp hdec hmin
    unfold spliceContent
    rw [hnone, hf]
    show template.take pre.length ++ body ++ nl2 ++ template.drop pre.length =
      pre ++ body ++ nl2 ++ endMarker ++ rest
    rw [hdec]
    exact splice_decomp pre endMarker rest body

/-- Witness for C6 on concrete templates with each anchor. -/
theorem spliceContent_spec_app :
    spliceContent ("AB".toList ++ bibMarker ++ "C".toList) ("X".toList) =
        "AB".toList ++ "X".toList ++ nl2 ++ bibMarker ++ "C".toList ∧
    spliceContent ("AB".toList ++ endMarker ++ "C".toList) ("X".toList) =
        "AB".toList ++ "X".toList ++ nl2 ++ endMarker ++ "C".toList :=
  ⟨(spliceContent_spec ("AB".toList ++ bibMarker ++ "C".toList) ("X".toList)
      ("AB".toList) ("C".toList)).1 rfl (by decide),
    (spliceContent_spec ("AB".toList ++ endMarker ++ "C".toList) ("X".toList)
      ("AB".toList) ("C".toList)).2 (by decide) rfl (by decide)⟩

/-- The upward walk always stops at the starting directory or one of its
ancestors. -/
theorem findAssetsRootAux_mem (fs : List String → Bool) :
    ∀ n (dir : List String), findAssetsRootAux fs n dir ∈ ancestorsAux n dir := by
  intro n
  induction n with
  | zero => intro dir; simp [findAssetsRootAux, ancestorsAux]
  | succ n ih =>
      intro dir
      cases dir with
      | nil => simp [findAssetsRootAux, ancestorsAux]
      | cons d ds =>
          by_cases h : fs ((d :: ds) ++ ["assets"]) = true
          · simp only [findAssetsRootAux, ancestorsAux]
            rw [if_pos h]
            exact List.mem_cons_self _ _
          · simp only [findAssetsRootAux, ancestorsAux]
            rw [if_neg h]
            exact List.mem_cons_of_mem _ (ih (d :: ds).dropLast)

/-- C1 counterexample: with no `assets` directory in any ancestor of the
document's directory, an individually resolvable asset, and symlink mode,
`copy_assets` copies nothing at all, while copy mode would copy the asset. -/
theorem copy_assets_no_fallback :
    (ancestors tex0.dropLast).all (fun dir => !fs0 (dir ++ ["assets"])) = true ∧
      resolve_asset_path fs0 tex0 asset0 = some src0 ∧
      copy_assets fs0 false tex0 out0 [asset0] true = [] ∧
      copy_assets fs0 false tex0 out0 [asset0] false = [out0 ++ asset0] := by
  refine ⟨by decide, by decide, by decide, by decide⟩

/-- C1 (amended): in symlink mode, when no ancestor of the document's
directory (including the root) owns a shared `assets` directory, the source
only logs a warning and copies nothing — the fallback to copying every
resolved reference individually happens only when a shared `assets`
directory was found but creating the link raised an `OSError`. -/
theorem copy_assets_symlink_no_assets (fs : List String → Bool) (symlinkFails : Bool)
    (texFile outputDir : List String) (assetRefs : List (List String))
    (h : ∀ dir ∈ ancestors texFile.dropLast, fs (dir ++ ["assets"]) = false) :
    copy_assets fs symlinkFails texFile outputDir assetRefs true = [] := by
  unfold copy_assets
  by_cases hra : assetRefs.isEmpty = true
  · rw [if_pos hra]
  · rw [if_neg hra]
    have hroot : fs (findAssetsRoot fs texFile.dropLast ++ ["assets"]) = false :=
      h _ (findAssetsRootAux_mem fs texFile.dropLast.length texFile.dropLast)
    simp [hroot]

/-- Witness for C1 (amended) on the concrete assets-free filesystem. -/
theorem copy_assets_symlink_no_assets_app :
    copy_assets fs0 false tex0 out0 [asset0] true = [] :=
  copy_assets_symlink_no_assets fs0 false tex0 out0 [asset0] (by decide)

/-! ### Shape of a date-pattern match -/

/-- The shape of the three groups of the date pattern: a four-digit year
and one- or two-digit month and day. -/
def isDateGroups (y m d : List Char) : Bool :=
  (y.length == 4) && y.all isDigit &&
  (m.length == 1 || m.length == 2) && m.all isDigit &&
  (d.length == 1 || d.length == 2) && d.all isDigit

/-- The text of a date-shaped substring with the given groups. -/
def dateOf (y m d : List Char) : List Char :=
  y ++ '-' :: m ++ '-' :: d

theorem matchMonthDash_sound {s m rest2 : List Char}
    (h : matchMonthDash s = some (m, rest2)) :
    m.all isDigit = true ∧ (m.length = 1 ∨ m.length = 2) ∧ s = m ++ '-' :: rest2 := by
  match s, h with
  | m1 :: m2 :: m3 :: rest, h =>
      simp only [matchMonthDash] at h
      by_cases h1 : isDigit m1 = true
      · rw [if_pos h1] at h
        by_cases h2 : (isDigit m2 && (m3 == '-')) = true
        · rw [if_pos h2] at h
          simp only [Option.some.injEq, Prod.mk.injEq] at h
          obtain ⟨hm, hr⟩ := h
          subst hm hr
          rcases Bool.and_eq_true_iff.mp h2 with ⟨hm2, hm3⟩
          have hd : m3 = '-' := by simpa using hm3
          subst hd
          exact ⟨by simp [h1, hm2], Or.inr rfl, rfl⟩
        · rw [if_neg h2] at h
          by_cases h3 : (m2 == '-') = true
          · rw [if_pos h3] at h
            simp only [Option.some.injEq, Prod.mk.injEq] at h
            obtain ⟨hm, hr⟩ := h
            subst hm hr
            have hd : m2 = '-' := by simpa using h3
            subst hd
            exact ⟨by simp [h1], Or.inl rfl, rfl⟩
          · rw [if_neg h3] at h
            cases h
      · rw [if_neg h1] at h
        cases h
  | [m1, m2], h =>
      simp only [matchMonthDash] at h
      by_cases h1 : (isDigit m1 && (m2 == '-')) = true
      · rw [if_pos h1] at h
        simp only [Option.some.injEq, Prod.mk.injEq] at h
        obtain ⟨hm, hr⟩ := h
        subst hm hr
        rcases Bool.and_eq_true_iff.mp h1 with ⟨hm1, hm2⟩
        have hd : m2 = '-' := by simpa using hm2
        subst hd
        exact ⟨by simp [hm1], Or.inl rfl, rfl⟩
      · rw [if_neg h1] at h
        cases h

theorem matchDay_sound {s d rem : List Char}
    (h : matchDay s = some (d, rem)) :
    d.all isDigit = true ∧ (d.length = 1 ∨ d.length = 2) ∧ s = d ++ rem := by
  match s, h with
  | d1 :: d2 :: rest, h =>
      simp only [matchDay] at h
      by_cases h1 : isDigit d1 = true
      · rw [if_pos h1] at h
        by_cases h2 : isDigit d2 = true
        · rw [if_pos h2] at h
          simp only [Option.some.injEq, Prod.mk.injEq] at h
          obtain ⟨hm, hr⟩ := h
          subst hm hr
          exact ⟨by simp [h1, h2], Or.inr rfl, rfl⟩
        · rw [if_neg h2] at h
          simp only [Option.some.injEq, Prod.mk.injEq] at h
          obtain ⟨hm, hr⟩ := h
          subst hm hr
          exact ⟨by simp [h1], Or.inl rfl, rfl⟩
      · rw [if_neg h1] at h
        cases h
  | [d1], h =>
      simp only [matchDay] at h
      by_cases h1 : isDigit d1 = true
      · rw [if_pos h1] at h
        simp only [Option.some.injEq, Prod.mk.injEq] at h
        obtain ⟨hm, hr⟩ := h
        subst hm hr
        exact ⟨by simp [h1], Or.inl rfl, rfl⟩
      · rw [if_neg h1] at h
        cases h

theorem matchDateAt_sound {s y m d : List Char}
    (h : matchDateAt s = some (y, m, d)) :
    isDateGroups y m d = true ∧ ∃ rem, s = dateOf y m d ++ rem := by
  match s, h with
  | c1 :: c2 :: c3 :: c4 :: c5 :: rest, h =>
      simp only [matchDateAt] at h
      by_cases hc : (isDigit c1 && isDigit c2 && isDigit c3 && isDigit c4 && (c5 == '-')) = true
      · rw [if_pos hc] at h
        simp only [Bool.and_eq_true] at hc
        obtain ⟨⟨⟨⟨h1, h2⟩, h3⟩, h4⟩, h5⟩ := hc
        have hc5 : c5 = '-' := by simpa using h5
        subst hc5
        cases hmd : matchMonthDash rest with
        | none => rw [hmd] at h; cases h
        | some mr =>
            obtain ⟨mm, rest2⟩ := mr
            rw [hmd] at h
            have h' : (match matchDay rest2 with
                | some (dg, _) => some ([c1, c2, c3, c4], mm, dg)
                | none => none) = some (y, m, d) := h
            cases hdy : matchDay rest2 with
            | none => rw [hdy] at h'; cases h'
            | some dr =>
                obtain ⟨dd, rem⟩ := dr
                rw [hdy] at h'
                simp only [Option.some.injEq, Prod.mk.injEq] at h'
                obtain ⟨hy, hm, hd⟩ := h'
                subst hy hm hd
                rcases matchMonthDash_sound hmd with ⟨hmdig, hmlen, hrest⟩
                rcases matchDay_sound hdy with ⟨hddig, hdlen, hrest2⟩
                constructor
                · unfold isDateGroups
                  simp [h1, h2, h3, h4, hmdig, hddig, hmlen, hdlen]
                · refine ⟨rem, ?_⟩
                  rw [hrest, hrest2]
                  simp [dateOf, List.append_assoc]
      · rw [if_neg hc] at h
        cases h

theorem dateSearch_sound {s y m d : List Char}
    (h : dateSearch s = some (y, m, d)) :
    isDateGroups y m d = true ∧ ∃ pre rem, s = pre ++ dateOf y m d ++ rem := by
  induction s with
  | nil => cases h
  | cons c t ih =>
      simp only [dateSearch] at h
      cases hm : matchDateAt (c :: t) with
      | some g =>
          rw [hm] at h
          have hg : g = (y, m, d) := Option.some.inj h
          subst hg
          rcases matchDateAt_sound hm with ⟨hshape, rem, hdec⟩
          exact ⟨hshape, [], rem, by simpa using hdec⟩
      | none =>
          rw [hm] at h
          rcases ih h with ⟨hshape, pre, rem, hdec⟩
          exact ⟨hshape, c :: pre, rem, by simp [hdec]⟩

theorem matchDateAt_isSome {y m d : List Char} (post : List Char)
    (h : isDateGroups y m d = true) :
    (matchDateAt (dateOf y m d ++ post)).isSome = true := by
  unfold isDateGroups at h
  simp only [Bool.and_eq_true, Bool.or_eq_true, beq_iff_eq] at h
  obtain ⟨⟨⟨⟨⟨hy4, hyd⟩, hml⟩, hmd⟩, hdl⟩, hdd⟩ := h
  rcases y with _ | ⟨c1, y⟩; · simp at hy4
  rcases y with _ | ⟨c2, y⟩; · simp at hy4
  rcases y with _ | ⟨c3, y⟩; · simp at hy4
  rcases y with _ | ⟨c4, y⟩; · simp at hy4
  have hy0 : y = [] := by
    simp only [List.length_cons] at hy4
    exact List.length_eq_zero.mp (by omega)
  subst hy0
  simp only [List.all_cons, List.all_nil, Bool.and_eq_true, Bool.and_true] at hyd
  obtain ⟨hc1, hc2, hc3, hc4⟩ := hyd
  have hm' : (∃ m1, m = [m1] ∧ isDigit m1 = true) ∨
      (∃ m1 m2, m = [m1, m2] ∧ isDigit m1 = true ∧ isDigit m2 = true) := by
    rcases hml with h1 | h2
    · rcases m with _ | ⟨m1, m⟩; · simp at h1
      have : m = [] := by
        simp only [List.length_cons] at h1
        exact List.length_eq_zero.mp (by omega)
      subst this
      simp only [List.all_cons, List.all_nil, Bool.and_true] at hmd
      exact Or.inl ⟨m1, rfl, hmd⟩
    · rcases m with _ | ⟨m1, m⟩; · simp at h2
      rcases m with _ | ⟨m2, m⟩; · simp at h2
      have : m = [] := by
        simp only [List.length_cons] at h2
        exact List.length_eq_zero.mp (by omega)
      subst this
      simp only [List.all_cons, List.all_nil, Bool.and_eq_true, Bool.and_true] at hmd
      exact Or.inr ⟨m1, m2, rfl, hmd.1, hmd.2⟩
  have hd' : (∃ d1, d = [d1] ∧ isDigit d1 = true) ∨
      (∃ d1 d2, d = [d1, d2] ∧ isDigit d1 = true ∧ isDigit d2 = true) := by
    rcases hdl with h1 | h2
    · rcases d with _ | ⟨d1, d⟩; · simp at h1
      have : d = [] := by
        simp only [List.length_cons] at h1
        exact List.length_eq_zero.mp (by omega)
      subst this
      simp only [List.all_cons, List.all_nil, Bool.and_true] at hdd
      exact Or.inl ⟨d1, rfl, hdd⟩
    · rcases d with _ | ⟨d1, d⟩; · simp at h2
      rcases d with _ | ⟨d2, d⟩; · simp at h2
      have : d = [] := by
        simp only [List.length_cons] at h2
        exact List.length_eq_zero.mp (by omega)
      subst this
      simp only [List.all_cons, List.all_nil, Bool.and_eq_true, Bool.and_true] at hdd
      exact Or.inr ⟨d1, d2, rfl, hdd.1, hdd.2⟩
  have hdashNotDigit : isDigit '-' = false := by decide
  have hdayAny : ∀ d1 (r : List Char), isDigit d1 = true →
      (matchDay (d1 :: r)).isSome = true := by
    intro d1 r hd1
    cases r with
    | nil => simp [matchDay, hd1]
    | cons p ps =>
        by_cases hp : isDigit p = true
        · simp [matchDay, hd1, hp]
        · simp [matchDay, hd1, hp]
  have hmdOne : ∀ (m1 x : Char) (xs : List Char), isDigit m1 = true →
      matchMonthDash (m1 :: '-' :: x :: xs) = some ([m1], x :: xs) := by
    intro m1 x xs h
    simp [matchMonthDash, h, hdashNotDigit]
  have hmdTwo : ∀ (m1 m2 : Char) (xs : List Char), isDigit m1 = true → isDigit m2 = true →
      matchMonthDash (m1 :: m2 :: '-' :: xs) = some ([m1, m2], xs) := by
    intro m1 m2 xs ha hb
    simp [matchMonthDash, ha, hb]
  have hcore : ∀ (rest mm dtail : List Char),
      matchMonthDash rest = some (mm, dtail) →
      (matchDay dtail).isSome = true →
      (matchDateAt (c1 :: c2 :: c3 :: c4 :: '-' :: rest)).isSome = true := by
    intro rest mm dtail hmm hday
    have hred : matchDateAt (c1 :: c2 :: c3 :: c4 :: '-' :: rest) =
        (match matchDay dtail with
          | some (dg, _) => some ([c1, c2, c3, c4], mm, dg)
          | none => none) := by
      simp only [matchDateAt]
      rw [if_pos (by simp [hc1, hc2, hc3, hc4]), hmm]
    rw [hred]
    rcases Option.isSome_iff_exists.mp hday with ⟨dv, hdv⟩
    obtain ⟨dd, rem⟩ := dv
    rw [hdv]
    rfl
  rcases hm' with ⟨m1, rfl, hm1⟩ | ⟨m1, m2, rfl, hm1, hm2⟩ <;>
      rcases hd' with ⟨d1, rfl, hd1⟩ | ⟨d1, d2, rfl, hd1, hd2⟩ <;>
    simp only [dateOf, List.cons_append, List.nil_append, List.append_assoc]
  · exact hcore _ _ _ (hmdOne m1 d1 post hm1) (hdayAny d1 post hd1)
  · exact hcore _ _ _ (hmdOne m1 d1 (d2 :: post) hm1) (hdayAny d1 (d2 :: post) hd1)
  · exact hcore _ _ _ (hmdTwo m1 m2 (d1 :: post) hm1 hm2) (hdayAny d1 post hd1)
  · exact hcore _ _ _ (hmdTwo m1 m2 (d1 :: d2 :: post) hm1 hm2) (hdayAny d1 (d2 :: post) hd1)

theorem dateSearch_isSome_append (pre rest : List Char)
    (h : (matchDateAt rest).isSome = true) :
    (dateSearch (pre ++ rest)).isSome = true := by
  induction pre with
  | nil =>
      cases rest with
      | nil => simp [matchDateAt] at h
      | cons c t =>
          simp only [List.nil_append]
          simp only [dateSearch]
          cases hm : matchDateAt (c :: t) with
          | none => rw [hm] at h; simp at h
          | some g => simp
  | cons p ps ih =>
      simp only [List.cons_append]
      simp only [dateSearch]
      cases hm : matchDateAt (p :: (ps ++ rest)) with
      | some g => simp
      | none => exact ih

/-- C3 counterexample: the filename stem 2023-1-1a2024-2-2 contains the
date-shaped substring 2024-2-2, yet `get_date_info` returns the components
of the earlier substring 2023-1-1, not those of 2024-2-2. -/
theorem get_date_info_not_all_substrings :
    (twoDateStem =
        "2023-1-1a".toList ++ dateOf ("2024".toList) ("2".toList) ("2".toList) ++
          ([] : List Char) ∧
      isDateGroups ("2024".toList) ("2".toList) ("2".toList) = true) ∧
    (get_date_info twoDateStem 2025 1 1).map DateInfo.year ≠ some ("2024".toList) := by
  refine ⟨⟨by decide, by decide⟩, by decide⟩

/-- C3 (amended): for every filename stem containing a date-shaped
substring, `get_date_info` extracts the components of one such substring of
the stem — the leftmost, greedily matched one — returning its year group
verbatim and its month and day groups re-rendered through `int` and `str`;
date-shaped substrings other than the matched one are ignored. -/
theorem get_date_info_leftmost (s : List Char) (nowYear nowMonth nowDay : Nat)
    (h : ∃ y m d pre post, isDateGroups y m d = true ∧ s = pre ++ dateOf y m d ++ post) :
    ∃ y m d pre post, isDateGroups y m d = true ∧ s = pre ++ dateOf y m d ++ post ∧
      dateSearch s = some (y, m, d) ∧
      ∀ info, get_date_info s nowYear nowMonth nowDay = some info →
        info.year = y ∧ info.month = natToStr (pyInt m) ∧ info.day = natToStr (pyInt d) := by
  rcases h with ⟨y, m, d, pre, post, hshape, hdec⟩
  have hsome : (dateSearch s).isSome = true := by
    rw [hdec, List.append_assoc]
    exact dateSearch_isSome_append pre _ (matchDateAt_isSome post hshape)
  cases hf : dateSearch s with
  | none => rw [hf] at hsome; cases hsome
  | some g =>
      obtain ⟨y', md⟩ := g
      obtain ⟨m', d'⟩ := md
      rcases dateSearch_sound hf with ⟨hshape', pre', post', hdec'⟩
      refine ⟨y', m', d', pre', post', hshape', hdec', rfl, ?_⟩
      intro info hinfo
      have hinfo' : mkDateInfo y' (pyInt m') (pyInt d') = some info := by
        rw [← hinfo]
        unfold get_date_info
        rw [hf]
      unfold mkDateInfo at hinfo'
      cases hg : pyGet month_names ((pyInt m' : Int) - 1) with
      | none => rw [hg] at hinfo'; cases hinfo'
      | some mn =>
          rw [hg] at hinfo'
          have hinfo'' :
              some (⟨y', natToStr (pyInt m'), natToStr (pyInt d'), mn,
                natToStr (pyInt d')⟩ : DateInfo) = some info := hinfo'
          have hrec := Option.some.inj hinfo''
          subst hrec
          exact ⟨rfl, rfl, rfl⟩

/-- Witness for C3 (amended) at a concrete stem with one date substring. -/
theorem get_date_info_leftmost_app :
    ∃ y m d pre post, isDateGroups y m d = true ∧
      "x2024-3-15y".toList = pre ++ dateOf y m d ++ post ∧
      dateSearch ("x2024-3-15y".toList) = some (y, m, d) ∧
      ∀ info, get_date_info ("x2024-3-15y".toList) 2025 1 1 = some info →
        info.year = y ∧ info.month = natToStr (pyInt m) ∧ info.day = natToStr (pyInt d) :=
  get_date_info_leftmost ("x2024-3-15y".toList) 2025 1 1
    ⟨"2024".toList, "3".toList, "15".toList, "x".toList, "y".toList, by decide, by decide⟩

/-! ### Idempotence of extraction (C4) -/

/-- The end-body marker has no period shorter than itself: no non-trivial
proper suffix of the wrapped text can restart it. -/
theorem endMarker_aperiodic :
    ∀ p, p < endMarker.length → 1 ≤ p →
      endMarker.drop p ≠ endMarker.take (endMarker.length - p) := by decide

/-- A prefix of an append that fits inside the first part is a prefix of the
first part. -/
theorem prefix_of_prefix_append {l x y : List Char}
    (h : l <+: x ++ y) (hlen : l.length ≤ x.length) : l <+: x := by
  have he : l = (x ++ y).take l.length := List.prefix_iff_eq_take.mp h
  rw [List.take_append_eq_append_take] at he
  have h0 : l.length - x.length = 0 := by omega
  rw [h0] at he
  simp only [List.take_zero, List.append_nil] at he
  exact List.prefix_iff_eq_take.mpr he

/-- When the body contains no end-body marker, the first end-body marker of
a wrapped document sits exactly after the begin marker and the body. -/
theorem strFind_wrap_end {B : List Char} (h1 : containsSub B endMarker = false) :
    strFind (beginMarker ++ B ++ endMarker) endMarker =
      some (beginMarker.length + B.length) := by
  have hbl : beginMarker.length = 16 := by decide
  have hel : endMarker.length = 14 := by decide
  apply strFind_of_occursAt_min
  · unfold occursAt
    have hlen : beginMarker.length + B.length = (beginMarker ++ B).length :=
      (List.length_append _ _).symm
    rw [hlen, List.drop_left]
    exact List.isPrefixOf_iff_prefix.mpr (List.prefix_refl _)
  · intro j hj
    by_cases hj16 : j < 16
    · unfold occursAt
      rw [List.append_assoc, List.drop_append_eq_append_drop]
      have h0 : j - beginMarker.length = 0 := by omega
      rw [h0, List.drop_zero]
      interval_cases j <;> rfl
    · by_contra hocc
      rw [Bool.not_eq_false] at hocc
      unfold occursAt at hocc
      rw [List.append_assoc, List.drop_append_eq_append_drop] at hocc
      have hdropB : beginMarker.drop j = [] := List.drop_eq_nil_of_le (by omega)
      rw [hdropB, List.nil_append, List.drop_append_eq_append_drop] at hocc
      have hk : j - beginMarker.length < B.length := by omega
      have h0 : j - beginMarker.length - B.length = 0 := by omega
      rw [h0, List.drop_zero] at hocc
      have hpre : endMarker <+: B.drop (j - beginMarker.length) ++ endMarker :=
        List.isPrefixOf_iff_prefix.mp hocc
      have hlenBk : (B.drop (j - beginMarker.length)).length =
          B.length - (j - beginMarker.length) := List.length_drop _ _
      by_cases hple : endMarker.length ≤ (B.drop (j - beginMarker.length)).length
      · have hpB : endMarker <+: B.drop (j - beginMarker.length) :=
          prefix_of_prefix_append hpre hple
        have hoB : occursAt B endMarker (j - beginMarker.length) = true := by
          unfold occursAt
          exact List.isPrefixOf_iff_prefix.mpr hpB
        have := containsSub_of_occursAt hoB
        rw [h1] at this
        cases this
      · have hp1 : 1 ≤ (B.drop (j - beginMarker.length)).length := by omega
        have hp14 : (B.drop (j - beginMarker.length)).length < endMarker.length := by omega
        have hE : endMarker = B.drop (j - beginMarker.length) ++
            endMarker.take (endMarker.length - (B.drop (j - beginMarker.length)).length) := by
          have he2 : endMarker = (B.drop (j - beginMarker.length) ++ endMarker).take
              endMarker.length := List.prefix_iff_eq_take.mp hpre
          rw [List.take_append_eq_append_take] at he2
          rw [List.take_of_length_le (by omega)] at he2
          exact he2
        have hD : endMarker.drop ((B.drop (j - beginMarker.length)).length) =
            endMarker.take (endMarker.length - (B.drop (j - beginMarker.length)).length) := by
          conv_lhs => rw [hE]
          rw [List.drop_append_eq_append_drop]
          rw [List.drop_eq_nil_of_le (Nat.le_refl _), List.nil_append, Nat.sub_self,
            List.drop_zero]
        exact endMarker_aperiodic _ hp14 hp1 hD

/-- C4 counterexample: extraction of a document whose body carries a title
line succeeds with the body abc-space (the title-line removal exposes a
trailing space), but re-extracting that body wrapped in the markers strips
the space, so the second extraction differs from the first. -/
theorem extract_content_not_idempotent :
    extract_content hrefDoc = some ("abc ".toList) ∧
      extract_content (beginMarker ++ "abc ".toList ++ endMarker) = some ("abc".toList) ∧
      ("abc".toList : List Char) ≠ "abc ".toList := by
  refine ⟨by decide, by decide, by decide⟩

/-- C4 (amended): re-extraction of a body wrapped between the markers
returns the body again provided the body contains no end-body marker and is
a fixed point of the strip-and-remove post-processing; the first extraction
need not produce such a fixed point (e.g. a trailing space exposed by the
title-line removal), and then idempotence fails. -/
theorem extract_content_wrap (B : List Char)
    (h1 : containsSub B endMarker = false)
    (h2 : postProcess B = B) :
    extract_content (beginMarker ++ B ++ endMarker) = some B := by
  have hbegin : strFind (beginMarker ++ B ++ endMarker) beginMarker = some 0 := by
    apply strFind_zero_of_prefix
    apply List.isPrefixOf_iff_prefix.mpr
    rw [List.append_assoc]
    exact List.prefix_append _ _
  have hend := strFind_wrap_end h1
  unfold extract_content
  rw [hbegin, hend]
  show some (postProcess (pySlice (beginMarker ++ B ++ endMarker)
    (0 + beginMarker.length) (beginMarker.length + B.length))) = some B
  have hsl : pySlice (beginMarker ++ B ++ endMarker) (0 + beginMarker.length)
      (beginMarker.length + B.length) = B := by
    unfold pySlice
    rw [Nat.zero_add]
    have ht : (beginMarker ++ B ++ endMarker).take (beginMarker.length + B.length) =
        beginMarker ++ B := by
      have hlen : beginMarker.length + B.length = (beginMarker ++ B).length :=
        (List.length_append _ _).symm
      rw [hlen, List.take_left]
    rw [ht, List.drop_left]
  rw [hsl, h2]

/-- Witness for C4 (amended) at a concrete fixed-point body. -/
theorem extract_content_wrap_app :
    (containsSub ("abc".toList) endMarker = false ∧
      postProcess ("abc".toList) = "abc".toList) ∧
    extract_content (beginMarker ++ "abc".toList ++ endMarker) = some ("abc".toList) :=
  ⟨⟨by decide, by decide⟩, extract_content_wrap ("abc".toList) (by decide) (by decide)⟩

